import Mathlib

/-!
Verification of the Positivity-Exchange repository: the tagged message
codec (src/comms/src/command.rs, src/comms/src/event.rs) and the two
terminal input editors (src/tui/src/state.rs, src/tui/src/app/mod.rs).

Rust strings are modelled as lists of Unicode scalar values (`List Char`
or Lean `String`, whose data is a list of chars). UTF-8 byte positions,
which the editor code manipulates, are modelled explicitly through the
byte size of each scalar value.
-/

namespace PosEx

/-! ## Message codec data model (src/comms/src/command.rs, event.rs) -/

/-- Model of `LoginCommand`. -/
structure LoginCommand where
  username : String
deriving DecidableEq, Repr

/-- Model of `JoinRoomCommand`. -/
structure JoinRoomCommand where
  room : String
deriving DecidableEq, Repr

/-- Model of `LeaveRoomCommand`. -/
structure LeaveRoomCommand where
  room : String
deriving DecidableEq, Repr

/-- Model of `SendMessageCommand`. -/
structure SendMessageCommand where
  room : String
  content : String
deriving DecidableEq, Repr

/-- Model of the unit struct `QuitCommand`. -/
structure QuitCommand where
deriving DecidableEq, Repr

/-- Model of the `UserCommand` tagged union. -/
inductive UserCommand where
  | login (c : LoginCommand)
  | joinRoom (c : JoinRoomCommand)
  | leaveRoom (c : LeaveRoomCommand)
  | sendMessage (c : SendMessageCommand)
  | quit (c : QuitCommand)
deriving DecidableEq, Repr

/-- Model of `RoomParticipationStatus`. -/
inductive RoomParticipationStatus where
  | joined
  | left
deriving DecidableEq, Repr

/-- Model of `RoomParticipationEvent`. -/
structure RoomParticipationEvent where
  room : String
  username : String
  status : RoomParticipationStatus
deriving DecidableEq, Repr

/-- Model of `UserMessageEvent`. -/
structure UserMessageEvent where
  room : String
  username : String
  content : String
deriving DecidableEq, Repr

/-- Model of the `Event` tagged union. -/
inductive Event where
  | roomParticipation (e : RoomParticipationEvent)
  | userMessage (e : UserMessageEvent)
deriving DecidableEq, Repr

/-- Decode failure kinds of the codec (spec section 4.1). `syntaxErr`
covers input that is not a well-formed wire object at all. -/
inductive DecodeError where
  | unknownTag
  | missingField
  | typeMismatch
  | syntaxErr
deriving DecidableEq, Repr

/-! ## Wire encoding

Modelled from the spec: the serde-derived `Serialize`/`Deserialize`
implementations for `UserCommand` and `Event` are generated code that is
not under src/; the wire shape is taken from spec sections 4.1 and 6
(one compact textual object, discriminator key "t" first, then the
variant's one-letter field keys in declared order; decoding accepts any
key order) and is checked byte-for-byte against the unit tests that are
under src/. The wire sublanguage is the flat object whose values are
strings, which is the only shape the codec emits. -/

/-- The opening brace character of the wire object. -/
def lbrace : Char := '\x7b'

/-- The closing brace character of the wire object. -/
def rbrace : Char := '\x7d'

/-- Lowercase hexadecimal digit for a value below 16. -/
def hexDigitChar (n : Nat) : Char :=
  if n < 10 then Char.ofNat (48 + n) else Char.ofNat (87 + n)

/-- Value of one hexadecimal digit character. -/
def hexVal (c : Char) : Option Nat :=
  if 48 ≤ c.toNat ∧ c.toNat ≤ 57 then some (c.toNat - 48)
  else if 97 ≤ c.toNat ∧ c.toNat ≤ 102 then some (c.toNat - 87)
  else if 65 ≤ c.toNat ∧ c.toNat ≤ 70 then some (c.toNat - 55)
  else none

/-- JSON string escaping of one character, as the serde serializer does
it: quote and backslash escaped, control characters below 0x20 escaped
with a short form when one exists and with \u00XX otherwise, every
other character kept literally. -/
def escChar (c : Char) : List Char :=
  if c = '"' then ['\\', '"']
  else if c = '\\' then ['\\', '\\']
  else if c.toNat = 8 then ['\\', 'b']
  else if c.toNat = 9 then ['\\', 't']
  else if c.toNat = 10 then ['\\', 'n']
  else if c.toNat = 12 then ['\\', 'f']
  else if c.toNat = 13 then ['\\', 'r']
  else if c.toNat < 32 then
    ['\\', 'u', '0', '0', hexDigitChar (c.toNat / 16), hexDigitChar (c.toNat % 16)]
  else [c]

/-- JSON string escaping of a whole string body. -/
def escape : List Char → List Char
  | [] => []
  | c :: rest => escChar c ++ escape rest

/-- Inverse of the two-character escapes. -/
def unescChar (e : Char) : Option Char :=
  if e = '"' then some '"'
  else if e = '\\' then some '\\'
  else if e = '/' then some '/'
  else if e = 'b' then some (Char.ofNat 8)
  else if e = 'f' then some (Char.ofNat 12)
  else if e = 'n' then some (Char.ofNat 10)
  else if e = 'r' then some (Char.ofNat 13)
  else if e = 't' then some (Char.ofNat 9)
  else none

/-- Cons a character onto a pending string-parse result. -/
def consParse (c : Char) : Option (List Char × List Char) → Option (List Char × List Char)
  | some (s, r) => some (c :: s, r)
  | none => none

/-- Parse the body of a JSON string up to and including the closing
quote, undoing escapes; returns the parsed body and the rest of the
input. -/
def parseStringAux : List Char → Option (List Char × List Char)
  | [] => none
  | c :: rest =>
    if c = '"' then some ([], rest)
    else if c = '\\' then
      match rest with
      | 'u' :: h1 :: h2 :: h3 :: h4 :: rest2 =>
        match hexVal h1, hexVal h2, hexVal h3, hexVal h4 with
        | some a, some b, some d, some e =>
          let n := ((a * 16 + b) * 16 + d) * 16 + e
          if n < 55296 then consParse (Char.ofNat n) (parseStringAux rest2) else none
        | _, _, _, _ => none
      | e :: rest2 =>
        match unescChar e with
        | some u => consParse u (parseStringAux rest2)
        | none => none
      | [] => none
    else if 32 ≤ c.toNat then consParse c (parseStringAux rest)
    else none

/-- Parse one JSON string literal, opening quote included. -/
def parseStr : List Char → Option (List Char × List Char)
  | [] => none
  | c :: rest => if c = '"' then parseStringAux rest else none

/-- Serialization of one string field value as a JSON string literal. -/
def serStr (s : List Char) : List Char := '"' :: (escape s ++ ['"'])

/-- An ordered flat wire object: a list of key/value string pairs. -/
abbrev ObjV : Type := List (List Char × List Char)

/-- Serialization of one key/value pair. -/
def serField (kv : List Char × List Char) : List Char :=
  serStr kv.1 ++ ':' :: serStr kv.2

/-- Serialization of a comma-separated field list. -/
def serFields : List (List Char × List Char) → List Char
  | [] => []
  | [kv] => serField kv
  | kv :: rest => serField kv ++ ',' :: serFields rest

/-- Serialization of a whole wire object. -/
def serObj (o : ObjV) : List Char :=
  lbrace :: (serFields o ++ [rbrace])

/-- Parse a comma-separated nonempty field list followed by the closing
brace; the fuel bounds the number of fields. -/
def parseFields : Nat → List Char → Option (List (List Char × List Char) × List Char)
  | 0, _ => none
  | fuel + 1, s =>
    match parseStr s with
    | none => none
    | some (k, r1) =>
      match r1 with
      | [] => none
      | c :: r2 =>
        if c = ':' then
          match parseStr r2 with
          | none => none
          | some (v, r3) =>
            match r3 with
            | [] => none
            | d :: r4 =>
              if d = ',' then
                match parseFields fuel r4 with
                | some (fs, r5) => some ((k, v) :: fs, r5)
                | none => none
              else if d = rbrace then some ([(k, v)], r4)
              else none
        else none

/-- Parse a complete wire object, requiring that it spans the whole
input. -/
def parseObj (s : List Char) : Option ObjV :=
  match s with
  | [] => none
  | c :: rest =>
    if c = lbrace then
      match rest with
      | [] => none
      | d :: rest2 =>
        if d = rbrace then (if rest2 = [] then some [] else none)
        else
          match parseFields rest.length (d :: rest2) with
          | some (fs, []) => some fs
          | _ => none
    else none

/-- First value bound to a key in a wire object. -/
def getField (k : List Char) : List (List Char × List Char) → Option (List Char)
  | [] => none
  | (k2, v) :: rest => if k2 = k then some v else getField k rest

/-- Wire object of a `UserCommand`: tag first, fields in declared
order, serde short names. -/
def encodeCmdObj : UserCommand → ObjV
  | .login c => [("t".data, "login".data), ("u".data, c.username.data)]
  | .joinRoom c => [("t".data, "join_room".data), ("r".data, c.room.data)]
  | .leaveRoom c => [("t".data, "leave_room".data), ("r".data, c.room.data)]
  | .sendMessage c =>
    [("t".data, "send_message".data), ("r".data, c.room.data), ("c".data, c.content.data)]
  | .quit _ => [("t".data, "quit".data)]

/-- Wire bytes of a `UserCommand`. -/
def encodeCmd (c : UserCommand) : List Char := serObj (encodeCmdObj c)

/-- Wire object of an `Event`. -/
def encodeEvtObj : Event → ObjV
  | .roomParticipation e =>
    [("t".data, "room_participation".data), ("r".data, e.room.data), ("u".data, e.username.data),
      ("s".data, match e.status with | .joined => "joined".data | .left => "left".data)]
  | .userMessage e =>
    [("t".data, "user_message".data), ("r".data, e.room.data), ("u".data, e.username.data),
      ("c".data, e.content.data)]

/-- Wire bytes of an `Event`. -/
def encodeEvt (e : Event) : List Char := serObj (encodeEvtObj e)

/-- The command tags that decoding recognizes. -/
def cmdTags : List (List Char) :=
  ["login".data, "join_room".data, "leave_room".data, "send_message".data, "quit".data]

/-- The event tags that decoding recognizes. -/
def evtTags : List (List Char) :=
  ["room_participation".data, "user_message".data]

/-- Decode a `UserCommand` from a parsed wire object: dispatch on the
discriminator "t", then look the variant's fields up by key, in any
order. -/
def decodeCmdObj (o : ObjV) : Except DecodeError UserCommand :=
  match getField "t".data o with
  | none => .error .missingField
  | some tag =>
    if tag = "login".data then
      match getField "u".data o with
      | some u => .ok (.login ⟨String.mk u⟩)
      | none => .error .missingField
    else if tag = "join_room".data then
      match getField "r".data o with
      | some r => .ok (.joinRoom ⟨String.mk r⟩)
      | none => .error .missingField
    else if tag = "leave_room".data then
      match getField "r".data o with
      | some r => .ok (.leaveRoom ⟨String.mk r⟩)
      | none => .error .missingField
    else if tag = "send_message".data then
      match getField "r".data o, getField "c".data o with
      | some r, some c => .ok (.sendMessage ⟨String.mk r, String.mk c⟩)
      | _, _ => .error .missingField
    else if tag = "quit".data then .ok (.quit ⟨⟩)
    else .error .unknownTag

/-- Decode a `RoomParticipationStatus` from its wire token. -/
def decodeStatus (s : List Char) : Except DecodeError RoomParticipationStatus :=
  if s = "joined".data then .ok .joined
  else if s = "left".data then .ok .left
  else .error .typeMismatch

/-- Decode an `Event` from a parsed wire object. -/
def decodeEvtObj (o : ObjV) : Except DecodeError Event :=
  match getField "t".data o with
  | none => .error .missingField
  | some tag =>
    if tag = "room_participation".data then
      match getField "r".data o, getField "u".data o, getField "s".data o with
      | some r, some u, some s =>
        match decodeStatus s with
        | .ok st => .ok (.roomParticipation ⟨String.mk r, String.mk u, st⟩)
        | .error e => .error e
      | _, _, _ => .error .missingField
    else if tag = "user_message".data then
      match getField "r".data o, getField "u".data o, getField "c".data o with
      | some r, some u, some c => .ok (.userMessage ⟨String.mk r, String.mk u, String.mk c⟩)
      | _, _, _ => .error .missingField
    else .error .unknownTag

/-- Decode a `UserCommand` from wire bytes. -/
def decodeCmd (s : List Char) : Except DecodeError UserCommand :=
  match parseObj s with
  | none => .error .syntaxErr
  | some o => decodeCmdObj o

/-- Decode an `Event` from wire bytes. -/
def decodeEvt (s : List Char) : Except DecodeError Event :=
  match parseObj s with
  | none => .error .syntaxErr
  | some o => decodeEvtObj o

/-! ## Parser/serializer round-trip lemmas -/

lemma psa_close (t : List Char) : parseStringAux ('"' :: t) = some ([], t) := by
  rw [parseStringAux.eq_def]; simp

lemma psa_lit (c : Char) (t : List Char) (hq : c ≠ '"') (hb : c ≠ '\\') (h32 : 32 ≤ c.toNat) :
    parseStringAux (c :: t) = consParse c (parseStringAux t) := by
  rw [parseStringAux.eq_def]
  simp only []
  rw [if_neg hq, if_neg hb, if_pos h32]

lemma psa_esc (e : Char) (t : List Char) (hu : e ≠ 'u') :
    parseStringAux ('\\' :: e :: t) =
      (match unescChar e with
        | some u => consParse u (parseStringAux t)
        | none => none) := by
  rw [parseStringAux.eq_def]
  simp only [eq_false (by decide : ¬ ('\\' : Char) = '"'), eq_self_iff_true, if_false, if_true]
  split
  · rename_i heq
    rw [List.cons.injEq] at heq
    exact absurd heq.1 hu
  · rename_i heq
    rw [List.cons.injEq] at heq
    rw [heq.1, heq.2]
  · rename_i heq
    exact absurd heq (by simp)

lemma psa_u (d1 d2 : Char) (t : List Char) (a b : Nat)
    (h1 : hexVal d1 = some a) (h2 : hexVal d2 = some b) :
    parseStringAux ('\\' :: 'u' :: '0' :: '0' :: d1 :: d2 :: t) =
      (if a * 16 + b < 55296 then consParse (Char.ofNat (a * 16 + b)) (parseStringAux t)
        else none) := by
  rw [parseStringAux.eq_def]
  simp only [h1, h2, show hexVal '0' = some 0 from by decide,
    eq_false (by decide : ¬ ('\\' : Char) = '"'), eq_self_iff_true, if_false, if_true]
  norm_num

lemma hexVal_hexDigitChar (m : Nat) (h : m < 16) : hexVal (hexDigitChar m) = some m := by
  interval_cases m <;> decide

/-- Parsing inverts escaping: the parser consumes an escaped body up to
the closing quote and returns the original string. -/
lemma parse_escape (s rest : List Char) :
    parseStringAux (escape s ++ '"' :: rest) = some (s, rest) := by
  induction s with
  | nil => simpa using psa_close rest
  | cons c s ih =>
    show parseStringAux ((escChar c ++ escape s) ++ '"' :: rest) = some (c :: s, rest)
    rw [List.append_assoc]
    by_cases hq : c = '"'
    · subst hq
      rw [show escChar '"' = ['\\', '"'] from by decide]
      simp only [List.cons_append, List.nil_append]
      rw [psa_esc _ _ (by decide), show unescChar '"' = some '"' from by decide, ih]
      rfl
    by_cases hb : c = '\\'
    · subst hb
      rw [show escChar '\\' = ['\\', '\\'] from by decide]
      simp only [List.cons_append, List.nil_append]
      rw [psa_esc _ _ (by decide), show unescChar '\\' = some '\\' from by decide, ih]
      rfl
    by_cases h8 : c.toNat = 8
    · have hc : c = Char.ofNat 8 := by rw [← h8, Char.ofNat_toNat]
      subst hc
      rw [show escChar (Char.ofNat 8) = ['\\', 'b'] from by decide]
      simp only [List.cons_append, List.nil_append]
      rw [psa_esc _ _ (by decide), show unescChar 'b' = some (Char.ofNat 8) from by decide, ih]
      rfl
    by_cases h9 : c.toNat = 9
    · have hc : c = Char.ofNat 9 := by rw [← h9, Char.ofNat_toNat]
      subst hc
      rw [show escChar (Char.ofNat 9) = ['\\', 't'] from by decide]
      simp only [List.cons_append, List.nil_append]
      rw [psa_esc _ _ (by decide), show unescChar 't' = some (Char.ofNat 9) from by decide, ih]
      rfl
    by_cases h10 : c.toNat = 10
    · have hc : c = Char.ofNat 10 := by rw [← h10, Char.ofNat_toNat]
      subst hc
      rw [show escChar (Char.ofNat 10) = ['\\', 'n'] from by decide]
      simp only [List.cons_append, List.nil_append]
      rw [psa_esc _ _ (by decide), show unescChar 'n' = some (Char.ofNat 10) from by decide, ih]
      rfl
    by_cases h12 : c.toNat = 12
    · have hc : c = Char.ofNat 12 := by rw [← h12, Char.ofNat_toNat]
      subst hc
      rw [show escChar (Char.ofNat 12) = ['\\', 'f'] from by decide]
      simp only [List.cons_append, List.nil_append]
      rw [psa_esc _ _ (by decide), show unescChar 'f' = some (Char.ofNat 12) from by decide, ih]
      rfl
    by_cases h13 : c.toNat = 13
    · have hc : c = Char.ofNat 13 := by rw [← h13, Char.ofNat_toNat]
      subst hc
      rw [show escChar (Char.ofNat 13) = ['\\', 'r'] from by decide]
      simp only [List.cons_append, List.nil_append]
      rw [psa_esc _ _ (by decide), show unescChar 'r' = some (Char.ofNat 13) from by decide, ih]
      rfl
    by_cases hlt : c.toNat < 32
    · have hesc : escChar c =
          ['\\', 'u', '0', '0', hexDigitChar (c.toNat / 16), hexDigitChar (c.toNat % 16)] := by
        simp only [escChar]
        rw [if_neg hq, if_neg hb, if_neg h8, if_neg h9, if_neg h10, if_neg h12, if_neg h13,
          if_pos hlt]
      rw [hesc]
      simp only [List.cons_append, List.nil_append]
      rw [psa_u _ _ _ _ _ (hexVal_hexDigitChar _ (by omega)) (hexVal_hexDigitChar _ (by omega))]
      rw [show c.toNat / 16 * 16 + c.toNat % 16 = c.toNat from by omega, if_pos (by omega),
        Char.ofNat_toNat, ih]
      rfl
    · have hesc : escChar c = [c] := by
        simp only [escChar]
        rw [if_neg hq, if_neg hb, if_neg h8, if_neg h9, if_neg h10, if_neg h12, if_neg h13,
          if_neg hlt]
      rw [hesc]
      simp only [List.cons_append, List.nil_append]
      rw [psa_lit _ _ hq hb (by omega), ih]
      rfl

/-- Parsing a serialized string literal returns the original string and
the untouched remainder. -/
lemma parseStr_serStr (s t : List Char) : parseStr (serStr s ++ t) = some (s, t) := by
  show parseStr (('"' :: (escape s ++ ['"'])) ++ t) = some (s, t)
  simp only [List.cons_append, List.append_assoc, List.singleton_append]
  rw [parseStr]
  rw [if_pos rfl]
  exact parse_escape s t

/-- Unfolding of field-list serialization at a cons cell. -/
lemma serFields_cons (kv : List Char × List Char) (tl : List (List Char × List Char)) :
    serFields (kv :: tl) =
      serField kv ++ (match tl with | [] => ([] : List Char) | _ :: _ => ',' :: serFields tl) := by
  cases tl with
  | nil => simp [serFields]
  | cons kv2 tl2 => rfl

/-- Length of a serialized field list dominates the number of fields. -/
lemma length_serFields (fs : List (List Char × List Char)) :
    fs.length ≤ (serFields fs).length := by
  induction fs with
  | nil => simp [serFields]
  | cons kv tl ih =>
    have h1 : 1 ≤ (serField kv).length := by simp [serField, serStr]
    cases tl with
    | nil =>
      rw [serFields_cons]
      simp only [List.length_append, List.length_cons, List.length_nil]
      omega
    | cons kv2 tl2 =>
      rw [serFields_cons]
      simp only [List.length_append, List.length_cons] at ih ⊢
      omega

/-- Parsing inverts field-list serialization, given enough fuel. -/
lemma parseFields_serFields (fs : List (List Char × List Char)) :
    ∀ (fuel : Nat) (rest : List Char), fs ≠ [] → fs.length < fuel →
      parseFields fuel (serFields fs ++ rbrace :: rest) = some (fs, rest) := by
  induction fs with
  | nil => intro fuel rest h; exact absurd rfl h
  | cons kv tl ih =>
    intro fuel rest _ hfuel
    obtain ⟨f, rfl⟩ : ∃ f, fuel = f + 1 := ⟨fuel - 1, by omega⟩
    cases tl with
    | nil =>
      show parseFields (f + 1) ((serStr kv.1 ++ ':' :: serStr kv.2) ++ rbrace :: rest) =
        some ([kv], rest)
      rw [parseFields]
      simp only [List.cons_append, List.append_assoc, parseStr_serStr, eq_self_iff_true,
        if_true, eq_false (by decide : ¬ rbrace = ','), if_false]
    | cons kv2 tl2 =>
      show parseFields (f + 1)
          ((serStr kv.1 ++ ':' :: serStr kv.2 ++ ',' :: serFields (kv2 :: tl2)) ++
            rbrace :: rest) = some (kv :: kv2 :: tl2, rest)
      rw [parseFields]
      have hf : (kv2 :: tl2).length < f := by
        simp only [List.length_cons] at hfuel ⊢
        omega
      simp only [List.cons_append, List.append_assoc, parseStr_serStr, eq_self_iff_true,
        if_true, ih f rest (by simp) hf]

/-- Parsing inverts object serialization. -/
lemma parseObj_serObj (o : ObjV) : parseObj (serObj o) = some o := by
  cases o with
  | nil => decide
  | cons kv tl =>
    rw [serObj, parseObj.eq_def]
    simp only [if_true]
    have hser : serFields (kv :: tl) ++ [rbrace] =
        '"' :: ((escape kv.1 ++ ['"']) ++
          ((':' :: serStr kv.2 ++
            (match tl with | [] => ([] : List Char) | _ :: _ => ',' :: serFields tl)) ++
            [rbrace])) := by
      rw [serFields_cons, serField, serStr]
      simp [List.append_assoc]
    have hlen : (kv :: tl).length < (serFields (kv :: tl) ++ [rbrace]).length := by
      have := length_serFields (kv :: tl)
      simp only [List.length_append, List.length_cons, List.length_nil] at this ⊢
      omega
    rw [hser]
    simp only []
    rw [if_neg (by decide : ¬ '"' = rbrace)]
    rw [← hser]
    rw [parseFields_serFields (kv :: tl) _ [] (by simp) hlen]

/-- Decoding recovers a command from its own encoded object. -/
lemma decodeCmdObj_encodeCmdObj (c : UserCommand) : decodeCmdObj (encodeCmdObj c) = .ok c := by
  cases c <;> simp +decide [encodeCmdObj, decodeCmdObj, getField]

/-- Decoding recovers an event from its own encoded object. -/
lemma decodeEvtObj_encodeEvtObj (e : Event) : decodeEvtObj (encodeEvtObj e) = .ok e := by
  cases e with
  | roomParticipation ev =>
    obtain ⟨r, u, st⟩ := ev
    cases st <;> simp +decide [encodeEvtObj, decodeEvtObj, getField, decodeStatus]
  | userMessage ev =>
    simp +decide [encodeEvtObj, decodeEvtObj, getField]

instance {α β : Type} [DecidableEq α] [DecidableEq β] : DecidableEq (Except α β) := fun a b =>
  match a, b with
  | .ok x, .ok y => if h : x = y then .isTrue (by rw [h]) else .isFalse (by simp [h])
  | .error x, .error y => if h : x = y then .isTrue (by rw [h]) else .isFalse (by simp [h])
  | .ok _, .error _ => .isFalse (by simp)
  | .error _, .ok _ => .isFalse (by simp)

/-- The section 8 unknown-tag example input. -/
def bogusBytes : List Char := "\x7b\"t\":\"bogus\"\x7d".data

/-- Completeness half of the unknown-tag law for commands: an
unknown-tag failure can only arise from a parsed object whose
discriminator is outside the recognized command tags. -/
lemma decodeCmd_unknownTag_inv (s : List Char) (h : decodeCmd s = .error .unknownTag) :
    ∃ o tag, parseObj s = some o ∧ getField "t".data o = some tag ∧ tag ∉ cmdTags := by
  rw [decodeCmd] at h
  split at h
  · exact absurd h (by simp)
  · rename_i o hp
    rw [decodeCmdObj] at h
    split at h
    · exact absurd h (by simp)
    · rename_i tag ht
      refine ⟨o, tag, hp, ht, ?_⟩
      split_ifs at h with h1 h2 h3 h4 h5 <;>
        first
          | ((split at h <;> simp at h); done)
          | (simp at h; done)
          | simp [cmdTags, h1, h2, h3, h4, h5]

/-- Completeness half of the unknown-tag law for events. -/
lemma decodeEvt_unknownTag_inv (s : List Char) (h : decodeEvt s = .error .unknownTag) :
    ∃ o tag, parseObj s = some o ∧ getField "t".data o = some tag ∧ tag ∉ evtTags := by
  rw [decodeEvt] at h
  split at h
  · exact absurd h (by simp)
  · rename_i o hp
    rw [decodeEvtObj] at h
    split at h
    · exact absurd h (by simp)
    · rename_i tag ht
      refine ⟨o, tag, hp, ht, ?_⟩
      split_ifs at h with h1 h2
      · split at h
        · split at h
          · simp at h
          · rename_i e heq
            rw [decodeStatus] at heq
            split_ifs at heq <;> simp_all
        · simp at h
      · split at h <;> simp at h
      · simp [evtTags, h1, h2]

/-- Soundness half of the unknown-tag law for commands. -/
lemma decodeCmd_unknownTag_of (s : List Char) (o : ObjV) (tag : List Char)
    (hp : parseObj s = some o) (ht : getField "t".data o = some tag)
    (hmem : tag ∉ cmdTags) : decodeCmd s = .error .unknownTag := by
  simp only [cmdTags, List.mem_cons, List.mem_singleton, not_or] at hmem
  obtain ⟨h1, h2, h3, h4, h5, -⟩ := hmem
  simp only [decodeCmd, hp]
  simp only [decodeCmdObj, ht]
  rw [if_neg h1, if_neg h2, if_neg h3, if_neg h4, if_neg h5]

/-- Soundness half of the unknown-tag law for events. -/
lemma decodeEvt_unknownTag_of (s : List Char) (o : ObjV) (tag : List Char)
    (hp : parseObj s = some o) (ht : getField "t".data o = some tag)
    (hmem : tag ∉ evtTags) : decodeEvt s = .error .unknownTag := by
  simp only [evtTags, List.mem_cons, List.mem_singleton, not_or] at hmem
  obtain ⟨h1, h2, -⟩ := hmem
  simp only [decodeEvt, hp]
  simp only [decodeEvtObj, ht]
  rw [if_neg h1, if_neg h2]

/-! ## Claim theorems for the codec -/

/-- C1: for every constructible `Command` and `Event` value, decoding
the bytes produced by encoding that value yields a value equal to the
original: decode(encode(v)) = v. -/
theorem claim_c1_roundtrip :
    (∀ c : UserCommand, decodeCmd (encodeCmd c) = .ok c) ∧
    (∀ e : Event, decodeEvt (encodeEvt e) = .ok e) := by
  constructor
  · intro c
    simp only [decodeCmd, encodeCmd, parseObj_serObj, decodeCmdObj_encodeCmdObj]
  · intro e
    simp only [decodeEvt, encodeEvt, parseObj_serObj, decodeEvtObj_encodeEvtObj]

/-- C4: encoding each literal example value of section 6 produces
exactly the listed byte sequence, with the tag field first followed by
the variant's fields in declared order. -/
theorem claim_c4_byte_exact :
    encodeCmd (.login ⟨"test"⟩) = "\x7b\"t\":\"login\",\"u\":\"test\"\x7d".data ∧
    encodeCmd (.joinRoom ⟨"test"⟩) = "\x7b\"t\":\"join_room\",\"r\":\"test\"\x7d".data ∧
    encodeCmd (.sendMessage ⟨"test", "test"⟩) =
      "\x7b\"t\":\"send_message\",\"r\":\"test\",\"c\":\"test\"\x7d".data ∧
    encodeCmd (.quit ⟨⟩) = "\x7b\"t\":\"quit\"\x7d".data ∧
    encodeEvt (.roomParticipation ⟨"test", "test", .joined⟩) =
      "\x7b\"t\":\"room_participation\",\"r\":\"test\",\"u\":\"test\",\"s\":\"joined\"\x7d".data ∧
    encodeEvt (.userMessage ⟨"test", "test", "test"⟩) =
      "\x7b\"t\":\"user_message\",\"r\":\"test\",\"u\":\"test\",\"c\":\"test\"\x7d".data := by
  refine ⟨?_, ?_, ?_, ?_, ?_, ?_⟩ <;> decide

/-- C9: decoding the section 8 example bytes with tag "bogus" fails
with `UnknownTag`, for commands and for events; and in general a decode
fails with `UnknownTag` exactly when the input parses to a wire object
whose discriminator "t" matches none of the recognized variant tags. -/
theorem claim_c9_unknown_tag :
    decodeCmd bogusBytes = .error .unknownTag ∧
    decodeEvt bogusBytes = .error .unknownTag ∧
    (∀ s o tag, parseObj s = some o → getField "t".data o = some tag →
      tag ∉ cmdTags → decodeCmd s = .error .unknownTag) ∧
    (∀ s, decodeCmd s = .error .unknownTag →
      ∃ o tag, parseObj s = some o ∧ getField "t".data o = some tag ∧ tag ∉ cmdTags) ∧
    (∀ s o tag, parseObj s = some o → getField "t".data o = some tag →
      tag ∉ evtTags → decodeEvt s = .error .unknownTag) ∧
    (∀ s, decodeEvt s = .error .unknownTag →
      ∃ o tag, parseObj s = some o ∧ getField "t".data o = some tag ∧ tag ∉ evtTags) := by
  refine ⟨by decide, by decide, ?_, ?_, ?_, ?_⟩
  · intro s o tag hp ht hmem
    exact decodeCmd_unknownTag_of s o tag hp ht hmem
  · intro s h
    exact decodeCmd_unknownTag_inv s h
  · intro s o tag hp ht hmem
    exact decodeEvt_unknownTag_of s o tag hp ht hmem
  · intro s h
    exact decodeEvt_unknownTag_inv s h

/-- Witness for the hypothesis-bearing parts of the C9 theorem,
instantiated at the section 8 "bogus" example. -/
theorem claim_c9_unknown_tag_witness :
    ∃ o tag, parseObj bogusBytes = some o ∧ getField "t".data o = some tag ∧ tag ∉ cmdTags :=
  claim_c9_unknown_tag.2.2.2.1 bogusBytes (by decide)

/-! ## Input editor model

The crossterm key-event types are shared external inputs of both editor
copies. `KeyEvent.ctrl` models whether the CONTROL modifier is held. -/

/-- Model of the crossterm key codes the editors inspect; `other`
stands for every unhandled key code. -/
inductive KeyCode where
  | char (c : Char)
  | enter
  | backspace
  | left
  | right
  | esc
  | other
deriving DecidableEq, Repr

/-- Model of crossterm `KeyEventKind`. -/
inductive KeyEventKind where
  | press
  | release
  | rep
deriving DecidableEq, Repr

/-- Model of a crossterm `KeyEvent` as far as the editors read it. -/
structure KeyEvent where
  code : KeyCode
  kind : KeyEventKind
  ctrl : Bool
deriving DecidableEq, Repr

/-- Model of the `InputMode` enum, declared identically in
src/tui/src/state.rs and src/tui/src/app/mod.rs. -/
inductive InputMode where
  | normal
  | editing
deriving DecidableEq, Repr

/-- UTF-8 byte size of one Unicode scalar value, as Rust's
`char::len_utf8` computes it. -/
def charUtf8Size (c : Char) : Nat :=
  if c.toNat < 128 then 1
  else if c.toNat < 2048 then 2
  else if c.toNat < 65536 then 3
  else 4

/-- UTF-8 byte length of a string, Rust's `String::len`. -/
def byteLen : List Char → Nat
  | [] => 0
  | c :: rest => charUtf8Size c + byteLen rest

/-- Split a string at a UTF-8 byte index, as Rust's `String::insert`
requires: `some (pre, suf)` when the byte index lies on a character
boundary at or before the end, `none` when the call would panic (index
past the end or inside a character's multi-byte encoding). -/
def splitAtByte : List Char → Nat → Option (List Char × List Char)
  | s, 0 => some ([], s)
  | [], _ + 1 => none
  | c :: rest, b + 1 =>
    if charUtf8Size c ≤ b + 1 then
      match splitAtByte rest (b + 1 - charUtf8Size c) with
      | some (pre, suf) => some (c :: pre, suf)
      | none => none
    else none

namespace StateRs

/-- Model of `App` in src/tui/src/state.rs: `input` is the buffer's
scalar values, `cursor_position` the number the code tracks (and uses
both as a byte and as a character index), `messages` the submitted
lines. -/
structure App where
  input : List Char
  cursor_position : Nat
  input_mode : InputMode
  messages : List (List Char)
deriving DecidableEq, Repr

/-- Model of `App::default`. -/
def App.default : App :=
  { input := [], input_mode := .normal, messages := [], cursor_position := 0 }

/-- Model of `App::clamp_cursor`: clamps to the buffer's byte length
(`self.input.len()`). -/
def clamp_cursor (a : App) (new_cursor_pos : Nat) : Nat :=
  min new_cursor_pos (byteLen a.input)

/-- Model of `App::move_cursor_left` (saturating subtraction, then
clamp). -/
def move_cursor_left (a : App) : App :=
  { a with cursor_position := clamp_cursor a (a.cursor_position - 1) }

/-- Model of `App::move_cursor_right`. -/
def move_cursor_right (a : App) : App :=
  { a with cursor_position := clamp_cursor a (a.cursor_position + 1) }

/-- Model of `App::enter_char`: `String::insert` at the byte index
`cursor_position` (`none` models the Rust panic when that index is not
a character boundary), followed by `move_cursor_right`. -/
def enter_char (a : App) (new_char : Char) : Option App :=
  match splitAtByte a.input a.cursor_position with
  | none => none
  | some (pre, suf) => some (move_cursor_right { a with input := pre ++ new_char :: suf })

/-- Model of `App::delete_char`: character-unit take/skip around the
cursor number, then `move_cursor_left`. -/
def delete_char (a : App) : App :=
  if a.cursor_position ≠ 0 then
    move_cursor_left
      { a with
        input := a.input.take (a.cursor_position - 1) ++ a.input.drop a.cursor_position }
  else a

/-- Model of `App::submit_message` (push the buffer onto `messages`,
clear it, `reset_cursor`). -/
def submit_message (a : App) : App :=
  { a with messages := a.messages ++ [a.input], input := [], cursor_position := 0 }

/-- Model of `App::handle_event`. The `Bool` in the result is true when
the method returns the `Err("Quit")` signal; `none` models a panic
inside `enter_char`. -/
def handle_event (a : App) (key : KeyEvent) : Option (App × Bool) :=
  match a.input_mode with
  | .normal =>
    match key.code with
    | .char c =>
      if c = 'e' then some ({ a with input_mode := .editing }, false)
      else if c = 'q' then some (a, true)
      else some (a, false)
    | _ => some (a, false)
  | .editing =>
    if key.kind = .press then
      match key.code with
      | .enter => some (submit_message a, false)
      | .char c =>
        match enter_char a c with
        | some a2 => some (a2, false)
        | none => none
      | .backspace => some (delete_char a, false)
      | .left => some (move_cursor_left a, false)
      | .right => some (move_cursor_right a, false)
      | .esc => some ({ a with input_mode := .normal }, false)
      | .other => some (a, false)
    else some (a, false)

end StateRs

namespace AppMod

/-- Model of `App` in src/tui/src/app/mod.rs. The `terminator` channel
handle is modelled by the `Bool` output of `handle_key_event`; `timer`
is the tick counter. -/
structure App where
  input : List Char
  cursor_position : Nat
  input_mode : InputMode
  messages : List (List Char)
  timer : Nat
deriving DecidableEq, Repr

/-- Model of `App::new`. -/
def App.new : App :=
  { input := [], input_mode := .normal, messages := [], cursor_position := 0, timer := 0 }

/-- Model of `App::increment_timer`. -/
def increment_timer (a : App) : App :=
  { a with timer := a.timer + 1 }

/-- Model of `App::clamp_cursor`. -/
def clamp_cursor (a : App) (new_cursor_pos : Nat) : Nat :=
  min new_cursor_pos (byteLen a.input)

/-- Model of `App::move_cursor_left`. -/
def move_cursor_left (a : App) : App :=
  { a with cursor_position := clamp_cursor a (a.cursor_position - 1) }

/-- Model of `App::move_cursor_right`. -/
def move_cursor_right (a : App) : App :=
  { a with cursor_position := clamp_cursor a (a.cursor_position + 1) }

/-- Model of `App::enter_char` (same byte-index `String::insert` as the
state.rs copy). -/
def enter_char (a : App) (new_char : Char) : Option App :=
  match splitAtByte a.input a.cursor_position with
  | none => none
  | some (pre, suf) => some (move_cursor_right { a with input := pre ++ new_char :: suf })

/-- Model of `App::delete_char`. -/
def delete_char (a : App) : App :=
  if a.cursor_position ≠ 0 then
    move_cursor_left
      { a with
        input := a.input.take (a.cursor_position - 1) ++ a.input.drop a.cursor_position }
  else a

/-- Model of `App::submit_message`. -/
def submit_message (a : App) : App :=
  { a with messages := a.messages ++ [a.input], input := [], cursor_position := 0 }

/-- Model of `App::handle_key_event`. The `Bool` is true when the
method calls `terminator.terminate(Interrupted::UserInt)`; `none`
models a panic inside `enter_char`. -/
def handle_key_event (a : App) (key : KeyEvent) : Option (App × Bool) :=
  match a.input_mode with
  | .normal =>
    match key.code with
    | .char c =>
      if c = 'e' then some ({ a with input_mode := .editing }, false)
      else if c = 'q' then some (a, true)
      else if c = 'c' ∧ key.ctrl then some (a, true)
      else some (a, false)
    | _ => some (a, false)
  | .editing =>
    if key.kind = .press then
      match key.code with
      | .enter => some (submit_message a, false)
      | .char c =>
        match enter_char a c with
        | some a2 => some (a2, false)
        | none => none
      | .backspace => some (delete_char a, false)
      | .left => some (move_cursor_left a, false)
      | .right => some (move_cursor_right a, false)
      | .esc => some ({ a with input_mode := .normal }, false)
      | .other => some (a, false)
    else some (a, false)

end AppMod

/-! ## Claim theorems for the input editor -/

/-- C5: in Editing mode, an Enter key press leaves the buffer empty,
the cursor at 0, and appends the pre-submit buffer to the submitted
history, for every buffer including the empty one; in both editor
copies. -/
theorem claim_c5_submit :
    (∀ (a : StateRs.App) (k : KeyEvent), a.input_mode = .editing → k.code = .enter →
      k.kind = .press →
      StateRs.handle_event a k =
        some ({ a with
                  input := [],
                  cursor_position := 0,
                  messages := a.messages ++ [a.input] }, false)) ∧
    (∀ (b : AppMod.App) (k : KeyEvent), b.input_mode = .editing → k.code = .enter →
      k.kind = .press →
      AppMod.handle_key_event b k =
        some ({ b with
                  input := [],
                  cursor_position := 0,
                  messages := b.messages ++ [b.input] }, false)) := by
  constructor
  · intro a k hm hc hk
    obtain ⟨code, kind, ctrl⟩ := k
    obtain ⟨i, cp, m, ms⟩ := a
    simp only at hm hc hk
    subst hm; subst hc; subst hk
    simp [StateRs.handle_event, StateRs.submit_message]
  · intro b k hm hc hk
    obtain ⟨code, kind, ctrl⟩ := k
    obtain ⟨i, cp, m, ms, t⟩ := b
    simp only at hm hc hk
    subst hm; subst hc; subst hk
    simp [AppMod.handle_key_event, AppMod.submit_message]

/-- Witness for C5 at a concrete Editing state with a nonempty buffer
and history. -/
theorem claim_c5_submit_witness :
    StateRs.handle_event ⟨['h', 'i'], 1, .editing, [['a']]⟩ ⟨.enter, .press, false⟩ =
      some (⟨[], 0, .editing, [['a'], ['h', 'i']]⟩, false) :=
  claim_c5_submit.1 ⟨['h', 'i'], 1, .editing, [['a']]⟩ ⟨.enter, .press, false⟩ rfl rfl rfl

/-- C7: in Normal mode a character key never mutates the buffer (nor
the cursor or history); the 'e' key in Normal mode switches the mode to
Editing; an Escape key press in Editing mode switches the mode to
Normal leaving buffer and cursor untouched; in both editor copies. -/
theorem claim_c7_mode_gating :
    (∀ (a : StateRs.App) (k : KeyEvent) (c : Char), a.input_mode = .normal →
      k.code = .char c →
      ∃ a2 q, StateRs.handle_event a k = some (a2, q) ∧ a2.input = a.input ∧
        a2.cursor_position = a.cursor_position ∧ a2.messages = a.messages) ∧
    (∀ (a : StateRs.App) (k : KeyEvent), a.input_mode = .normal → k.code = .char 'e' →
      StateRs.handle_event a k = some ({ a with input_mode := .editing }, false)) ∧
    (∀ (a : StateRs.App) (k : KeyEvent), a.input_mode = .editing → k.code = .esc →
      k.kind = .press →
      StateRs.handle_event a k = some ({ a with input_mode := .normal }, false)) ∧
    (∀ (b : AppMod.App) (k : KeyEvent) (c : Char), b.input_mode = .normal →
      k.code = .char c →
      ∃ b2 q, AppMod.handle_key_event b k = some (b2, q) ∧ b2.input = b.input ∧
        b2.cursor_position = b.cursor_position ∧ b2.messages = b.messages) ∧
    (∀ (b : AppMod.App) (k : KeyEvent), b.input_mode = .normal → k.code = .char 'e' →
      AppMod.handle_key_event b k = some ({ b with input_mode := .editing }, false)) ∧
    (∀ (b : AppMod.App) (k : KeyEvent), b.input_mode = .editing → k.code = .esc →
      k.kind = .press →
      AppMod.handle_key_event b k = some ({ b with input_mode := .normal }, false)) := by
  refine ⟨?_, ?_, ?_, ?_, ?_, ?_⟩
  · intro a k c hm hc
    obtain ⟨code, kind, ctrl⟩ := k
    obtain ⟨i, cp, m, ms⟩ := a
    simp only at hm hc
    subst hm; subst hc
    simp only [StateRs.handle_event]
    split_ifs <;> exact ⟨_, _, rfl, rfl, rfl, rfl⟩
  · intro a k hm hc
    obtain ⟨code, kind, ctrl⟩ := k
    obtain ⟨i, cp, m, ms⟩ := a
    simp only at hm hc
    subst hm; subst hc
    simp [StateRs.handle_event]
  · intro a k hm hc hk
    obtain ⟨code, kind, ctrl⟩ := k
    obtain ⟨i, cp, m, ms⟩ := a
    simp only at hm hc hk
    subst hm; subst hc; subst hk
    simp [StateRs.handle_event]
  · intro b k c hm hc
    obtain ⟨code, kind, ctrl⟩ := k
    obtain ⟨i, cp, m, ms, t⟩ := b
    simp only at hm hc
    subst hm; subst hc
    simp only [AppMod.handle_key_event]
    split_ifs <;> exact ⟨_, _, rfl, rfl, rfl, rfl⟩
  · intro b k hm hc
    obtain ⟨code, kind, ctrl⟩ := k
    obtain ⟨i, cp, m, ms, t⟩ := b
    simp only at hm hc
    subst hm; subst hc
    simp [AppMod.handle_key_event]
  · intro b k hm hc hk
    obtain ⟨code, kind, ctrl⟩ := k
    obtain ⟨i, cp, m, ms, t⟩ := b
    simp only at hm hc hk
    subst hm; subst hc; subst hk
    simp [AppMod.handle_key_event]

/-- Witness for C7: the three Normal/Editing gating facts at concrete
states, obtained from the claim theorem. -/
theorem claim_c7_mode_gating_witness :
    (∃ a2 q, StateRs.handle_event ⟨['x'], 1, .normal, []⟩ ⟨.char 'z', .press, false⟩ =
      some (a2, q) ∧ a2.input = ['x'] ∧ a2.cursor_position = 1 ∧ a2.messages = []) ∧
    StateRs.handle_event ⟨['x'], 1, .normal, []⟩ ⟨.char 'e', .press, false⟩ =
      some (⟨['x'], 1, .editing, []⟩, false) ∧
    StateRs.handle_event ⟨['x'], 1, .editing, []⟩ ⟨.esc, .press, false⟩ =
      some (⟨['x'], 1, .normal, []⟩, false) := by
  refine ⟨?_, ?_, ?_⟩
  · exact claim_c7_mode_gating.1 ⟨['x'], 1, .normal, []⟩ ⟨.char 'z', .press, false⟩ 'z' rfl rfl
  · exact claim_c7_mode_gating.2.1 ⟨['x'], 1, .normal, []⟩ ⟨.char 'e', .press, false⟩ rfl rfl
  · exact claim_c7_mode_gating.2.2.1 ⟨['x'], 1, .editing, []⟩ ⟨.esc, .press, false⟩ rfl rfl rfl

/-- C2 evidence: in the app/mod.rs editor, after entering Editing mode
and typing the two-byte character U+00E9, backspacing does remove
exactly that one character unit, but typing a further character makes
`String::insert` receive byte index 1, which lies inside U+00E9's
two-byte encoding: the code panics (modelled as `none`) instead of
performing a character-unit insertion. -/
theorem claim_c2_multibyte_insertion_splits :
    AppMod.handle_key_event AppMod.App.new ⟨.char 'e', .press, false⟩ =
      some (⟨[], 0, .editing, [], 0⟩, false) ∧
    AppMod.handle_key_event ⟨[], 0, .editing, [], 0⟩ ⟨.char (Char.ofNat 233), .press, false⟩ =
      some (⟨[Char.ofNat 233], 1, .editing, [], 0⟩, false) ∧
    AppMod.handle_key_event ⟨[Char.ofNat 233], 1, .editing, [], 0⟩ ⟨.backspace, .press, false⟩ =
      some (⟨[], 0, .editing, [], 0⟩, false) ∧
    AppMod.handle_key_event ⟨[Char.ofNat 233], 1, .editing, [], 0⟩ ⟨.char 'a', .press, false⟩ =
      none := by
  refine ⟨?_, ?_, ?_, ?_⟩ <;> decide

/-- C3 evidence: in the state.rs editor, the key sequence 'e' (enter
Editing), U+00E9, Right is reachable from the initial state and leaves
the cursor at 2 although the buffer holds a single character, because
`clamp_cursor` clamps to the UTF-8 byte length instead of the character
count. -/
theorem claim_c3_cursor_exceeds_char_length :
    StateRs.handle_event StateRs.App.default ⟨.char 'e', .press, false⟩ =
      some (⟨[], 0, .editing, []⟩, false) ∧
    StateRs.handle_event ⟨[], 0, .editing, []⟩ ⟨.char (Char.ofNat 233), .press, false⟩ =
      some (⟨[Char.ofNat 233], 1, .editing, []⟩, false) ∧
    StateRs.handle_event ⟨[Char.ofNat 233], 1, .editing, []⟩ ⟨.right, .press, false⟩ =
      some (⟨[Char.ofNat 233], 2, .editing, []⟩, false) ∧
    ([Char.ofNat 233] : List Char).length = 1 := by
  refine ⟨?_, ?_, ?_, ?_⟩ <;> decide

/-- C6 evidence: from the reachable state.rs editor state with buffer
[U+00E9] and cursor 2, inserting 'a' and then backspacing yields buffer
[U+00E9, 'a'] with cursor 2: the cursor is restored but the buffer is
not, because `delete_char` removes by character index the cursor
reached by byte arithmetic. -/
theorem claim_c6_insert_delete_not_inverse :
    StateRs.handle_event ⟨[Char.ofNat 233], 2, .editing, []⟩ ⟨.char 'a', .press, false⟩ =
      some (⟨[Char.ofNat 233, 'a'], 3, .editing, []⟩, false) ∧
    StateRs.handle_event ⟨[Char.ofNat 233, 'a'], 3, .editing, []⟩ ⟨.backspace, .press, false⟩ =
      some (⟨[Char.ofNat 233, 'a'], 2, .editing, []⟩, false) ∧
    ([Char.ofNat 233, 'a'] : List Char) ≠ [Char.ofNat 233] := by
  refine ⟨?_, ?_, ?_⟩ <;> decide

/-- C8: in Normal mode, 'q' (in both copies) and Ctrl-C (in the
app/mod.rs copy) emit the terminate signal and leave the whole state,
buffer and cursor included, unchanged; but the quit signal is not the
only non-ordinary outcome: a reachable Editing-mode insertion panics
(the final conjunct, `none`), contradicting the claim's "only"
clause. -/
theorem claim_c8_quit_gating_evidence :
    (∀ (a : StateRs.App) (k : KeyEventKind) (m : Bool), a.input_mode = .normal →
      StateRs.handle_event a ⟨.char 'q', k, m⟩ = some (a, true)) ∧
    (∀ (b : AppMod.App) (k : KeyEventKind), b.input_mode = .normal →
      AppMod.handle_key_event b ⟨.char 'q', k, false⟩ = some (b, true) ∧
      AppMod.handle_key_event b ⟨.char 'c', k, true⟩ = some (b, true)) ∧
    StateRs.handle_event ⟨[Char.ofNat 233], 1, .editing, []⟩ ⟨.char 'a', .press, false⟩ =
      none := by
  refine ⟨?_, ?_, by decide⟩
  · intro a k m hm
    obtain ⟨i, cp, mo, ms⟩ := a
    simp only at hm
    subst hm
    simp [StateRs.handle_event]
  · intro b k hm
    obtain ⟨i, cp, mo, ms, t⟩ := b
    simp only at hm
    subst hm
    constructor
    · simp [AppMod.handle_key_event]
    · simp [AppMod.handle_key_event]

/-- Witness for C8's quantified quit-gating conjuncts at a concrete
Normal-mode state. -/
theorem claim_c8_quit_gating_evidence_witness :
    StateRs.handle_event ⟨['x'], 1, .normal, [['m']]⟩ ⟨.char 'q', .release, false⟩ =
      some (⟨['x'], 1, .normal, [['m']]⟩, true) ∧
    AppMod.handle_key_event ⟨['x'], 1, .normal, [], 7⟩ ⟨.char 'c', .press, true⟩ =
      some (⟨['x'], 1, .normal, [], 7⟩, true) :=
  ⟨claim_c8_quit_gating_evidence.1 ⟨['x'], 1, .normal, [['m']]⟩ .release false rfl,
    (claim_c8_quit_gating_evidence.2.1 ⟨['x'], 1, .normal, [], 7⟩ .press rfl).2⟩

/-- Observable components of a state.rs editor state: buffer, cursor,
mode, history. -/
def viewS (a : StateRs.App) : List Char × Nat × InputMode × List (List Char) :=
  (a.input, a.cursor_position, a.input_mode, a.messages)

/-- Observable components of an app/mod.rs editor state. -/
def viewM (b : AppMod.App) : List Char × Nat × InputMode × List (List Char) :=
  (b.input, b.cursor_position, b.input_mode, b.messages)

/-- C10: the two editor implementations compute identical buffer,
cursor, mode and history transitions: starting from states with equal
observable components, handling any key event either panics in both or
yields states with equal observable components. -/
theorem claim_c10_editor_equivalence (a : StateRs.App) (b : AppMod.App) (k : KeyEvent)
    (h : viewS a = viewM b) :
    Option.map (fun p => viewS p.1) (StateRs.handle_event a k) =
      Option.map (fun p => viewM p.1) (AppMod.handle_key_event b k) := by
  obtain ⟨i, cp, m, ms⟩ := a
  obtain ⟨i2, cp2, m2, ms2, t⟩ := b
  simp only [viewS, viewM, Prod.mk.injEq] at h
  obtain ⟨rfl, rfl, rfl, rfl⟩ := h
  obtain ⟨code, kind, ctrl⟩ := k
  cases m with
  | normal =>
    cases code <;>
      simp only [StateRs.handle_event, AppMod.handle_key_event, Option.map] <;>
      first
        | (split_ifs <;> simp [viewS, viewM])
        | simp [viewS, viewM]
  | editing =>
    cases code with
    | char c =>
      cases kind <;>
        simp only [StateRs.handle_event, AppMod.handle_key_event, StateRs.enter_char,
          AppMod.enter_char, Option.map, viewS, viewM] <;>
        try rfl
      cases hsplit : splitAtByte i cp with
      | none => simp [hsplit]
      | some pre =>
        simp [hsplit, StateRs.move_cursor_right, AppMod.move_cursor_right,
          StateRs.clamp_cursor, AppMod.clamp_cursor, viewS, viewM]
    | _ =>
      cases kind <;>
        simp [StateRs.handle_event, AppMod.handle_key_event, StateRs.submit_message,
          AppMod.submit_message, StateRs.delete_char, AppMod.delete_char,
          StateRs.move_cursor_left, AppMod.move_cursor_left, StateRs.move_cursor_right,
          AppMod.move_cursor_right, StateRs.clamp_cursor, AppMod.clamp_cursor,
          viewS, viewM] <;>
        split_ifs <;>
        simp [StateRs.move_cursor_left, AppMod.move_cursor_left, StateRs.clamp_cursor,
          AppMod.clamp_cursor, viewS, viewM]

/-- Witness for C10: the two editors agree on a concrete Right-key
transition from observably equal states. -/
theorem claim_c10_editor_equivalence_witness :
    viewS ⟨['x'], 0, .editing, []⟩ = viewM ⟨['x'], 0, .editing, [], 5⟩ ∧
    Option.map (fun p => viewS p.1)
        (StateRs.handle_event ⟨['x'], 0, .editing, []⟩ ⟨.right, .press, false⟩) =
      Option.map (fun p => viewM p.1)
        (AppMod.handle_key_event ⟨['x'], 0, .editing, [], 5⟩ ⟨.right, .press, false⟩) :=
  ⟨rfl, claim_c10_editor_equivalence ⟨['x'], 0, .editing, []⟩ ⟨['x'], 0, .editing, [], 5⟩
    ⟨.right, .press, false⟩ rfl⟩
